import Mathlib

/-!
Shallow embedding of the deal-scraping pipeline in `agents/deals.py` of the
AI-Multi-Agent-Deal-Finder repository, together with theorems settling the
frozen claims about its specification.

Python strings are modelled as `List Char` (`PyStr`).  Python floats carried
by the data contracts are modelled as exact rationals (`ℚ`); the only values
the claims touch are decimal literals, which ℚ represents exactly.  External
collaborators (BeautifulSoup, requests, feedparser, tqdm) are modelled as an
explicit environment of functions (`SoupEnv`); everything the repository's own
code does with their results is translated from the source.
-/

set_option maxRecDepth 20000

/-- Python strings, modelled as lists of characters. -/
abbrev PyStr := List Char

/-- Exceptions the embedded code can raise, matching the failure points of
`ScrapedDeal.__init__`: `entry['links'][0]` on an empty link list
(`IndexError`), a failing `requests.get` (network error), `.get_text()` on the
`None` returned by a failed `soup.find` (`AttributeError`), and tuple
unpacking of a split with more than two parts (`ValueError`). -/
inductive PyErr where
  | indexError
  | httpError
  | attributeError
  | valueError
deriving DecidableEq, Repr

/-- Model of Python's `s.replace('\n', ' ')`: a single-character replacement
is a character-wise map. -/
def replaceNl (l : PyStr) : PyStr :=
  l.map (fun c => if c = '\n' then ' ' else c)

/-- Characters stripped by Python's `str.strip()` (ASCII whitespace; the
inputs in this development contain no exotic Unicode spaces). -/
def pySpace (c : Char) : Bool :=
  c = ' ' || c = '\t' || c = '\n' || c = '\r' || c = '\x0b' || c = '\x0c'

/-- Model of Python's `str.strip()`: drop leading and trailing whitespace. -/
def pyStrip (l : PyStr) : PyStr :=
  ((l.dropWhile pySpace).reverse.dropWhile pySpace).reverse

/-- One-pass state machine implementing `re.sub('<[^<]+?>', '', s)` from
`extract`.  `pend = some buf` means a `<` has been read and `buf` holds the
characters read since (reversed), none of which is `<` and of which only the
first may be `>` (the lazy `[^<]+?` needs at least one character before the
closing `>`, so a `>` directly after `<` is consumed as content).  A further
`<` aborts the pending match (the aborted region is emitted verbatim; it
cannot contain the start of another match since it has no other `<`), a `>`
after at least one consumed character closes and deletes the match, exactly
the leftmost-shortest semantics of the lazy regex. -/
def stripTagsGo (pend : Option (List Char)) : List Char → List Char
  | [] =>
    match pend with
    | none => []
    | some buf => '<' :: buf.reverse
  | c :: rest =>
    match pend with
    | none =>
      if c = '<' then stripTagsGo (some []) rest
      else c :: stripTagsGo none rest
    | some buf =>
      if c = '<' then ('<' :: buf.reverse) ++ stripTagsGo (some []) rest
      else if c = '>' then
        (if buf = [] then stripTagsGo (some ['>']) rest
         else stripTagsGo none rest)
      else stripTagsGo (some (c :: buf)) rest

/-- Model of `re.sub('<[^<]+?>', '', s)`, the regex safety net in `extract`. -/
def stripTags (l : PyStr) : PyStr :=
  stripTagsGo none l

/-- A feed entry as used by `ScrapedDeal.__init__`: `entry['title']`,
`entry['summary']`, and `entry['links']`, whose elements are modelled by
their `href` string. -/
structure Entry where
  title : PyStr
  summary : PyStr
  links : List PyStr
deriving DecidableEq, Repr

/-- Environment of external collaborators used by `agents/deals.py`.
`findSnippetText s` models `BeautifulSoup(s).find('div', class_='snippet
summary')` followed by `.get_text(strip=True)` (`none` when the div is
absent); `getText s` models `BeautifulSoup(s).get_text()` on an arbitrary
string (entity decoding and tag removal); `httpGet url` models
`requests.get(url).content` (which can raise); `findContentText page` models
`BeautifulSoup(page).find('div', class_='content-section')` followed by
`.get_text()` (`none` when the div is absent, in which case the source's
attribute access on `None` raises); `parseFeed url` models
`feedparser.parse(url).entries` (feedparser does not raise on a bad feed: it
yields an empty entry list). -/
structure SoupEnv where
  findSnippetText : PyStr → Option PyStr
  getText : PyStr → PyStr
  httpGet : PyStr → Except PyErr PyStr
  findContentText : PyStr → Option PyStr
  parseFeed : PyStr → List Entry

/-- The `extract` function of `agents/deals.py`: find the snippet-summary
div; if found, take its text, re-parse and take text again, strip remaining
tags with the regex, and strip whitespace; otherwise fall back to the raw
input; finally replace newlines with spaces. -/
def extract (env : SoupEnv) (htmlSnippet : PyStr) : PyStr :=
  match env.findSnippetText htmlSnippet with
  | some description =>
    let description := env.getText description
    let description := stripTags description
    let result := pyStrip description
    replaceNl result
  | none => replaceNl htmlSnippet

/-- First-occurrence search for a literal separator: `findSplit sep l = some
(b, a)` when `l = b ++ sep ++ a` with the occurrence of `sep` at the earliest
position, and `none` when `sep` does not occur in `l`.  This is the scanning
primitive behind Python's `sep in s` test and `s.split(sep)`. -/
def findSplit (sep : List Char) : List Char → Option (List Char × List Char)
  | [] => if sep.isPrefixOf ([] : List Char) then some ([], []) else none
  | c :: rest =>
    if sep.isPrefixOf (c :: rest) then some ([], (c :: rest).drop sep.length)
    else (findSplit sep rest).map (fun p => (c :: p.1, p.2))

/-- The literal marker `"Features"` used by `ScrapedDeal.__init__`. -/
def featSep : List Char := "Features".toList

/-- Model of Python's `"Features" in content`. -/
def containsFeat (content : PyStr) : Bool :=
  (findSplit featSep content).isSome

/-- The content-split step of `ScrapedDeal.__init__`:

    if "Features" in content:
        self.details, self.features = content.split("Features")
    else:
        self.details = content
        self.features = ""

`content.split("Features")` splits at every occurrence, so the two-variable
unpacking succeeds exactly when the marker occurs once; a second occurrence
(an occurrence inside the part after the first split point) makes the split
yield more than two parts and the unpacking raise `ValueError`. -/
def splitFeatures (content : PyStr) : Except PyErr (PyStr × PyStr) :=
  match findSplit featSep content with
  | some (d, f) =>
    if (findSplit featSep f).isSome then .error .valueError else .ok (d, f)
  | none => .ok (content, [])

/-- The pattern `"\nmore"` removed from page content by
`ScrapedDeal.__init__`. -/
def nlMore : List Char := "\nmore".toList

/-- One-pass state machine implementing `content.replace('\nmore', '')`
(removal of every non-overlapping, leftmost-first occurrence).  `pend` is the
prefix of `"\nmore"` matched so far; since `'\n'` occurs only at the start of
the pattern, a failed partial match cannot contain the start of another
occurrence except at the mismatching character itself. -/
def rmMoreGo (pend : List Char) : List Char → List Char
  | [] => pend
  | c :: rest =>
    if nlMore.get? pend.length = some c then
      (if pend.length = 4 then rmMoreGo [] rest
       else rmMoreGo (pend ++ [c]) rest)
    else if c = '\n' then pend ++ rmMoreGo ['\n'] rest
    else (pend ++ [c]) ++ rmMoreGo [] rest

/-- The content clean-up of `ScrapedDeal.__init__`:
`content.replace('\nmore', '').replace('\n', ' ')`. -/
def cleanContent (raw : PyStr) : PyStr :=
  replaceNl (rmMoreGo [] raw)

/-- A deal scraped from an RSS feed, as populated by `ScrapedDeal.__init__`.
The source also declares a `category` attribute but never assigns it, so it
is not part of the constructed state. -/
structure ScrapedDeal where
  title : PyStr
  summary : PyStr
  url : PyStr
  details : PyStr
  features : PyStr
deriving DecidableEq, Repr

/-- `ScrapedDeal.__init__`: take the entry's title; normalize its summary
with `extract`; take the first link's href (an empty link list makes the
`[0]` index raise); fetch the destination page (can raise); locate the
content-section div and take its text (a missing div makes `.get_text()` on
`None` raise `AttributeError`); clean the text; split it at the `"Features"`
marker. -/
def mkScrapedDeal (env : SoupEnv) (entry : Entry) : Except PyErr ScrapedDeal :=
  let title := entry.title
  let summary := extract env entry.summary
  match entry.links with
  | [] => .error .indexError
  | url :: _ =>
    match env.httpGet url with
    | .error e => .error e
    | .ok page =>
      match env.findContentText page with
      | none => .error .attributeError
      | some raw =>
        let content := cleanContent raw
        match splitFeatures content with
        | .error e => .error e
        | .ok (d, f) =>
          .ok { title := title, summary := summary, url := url,
                details := d, features := f }

/-- `ScrapedDeal.describe`: the rendering
`f"Title: {t}\nDetails: {d.strip()}\nFeatures: {f.strip()}\nURL: {u}"`,
which strips the stored `details` and `features` for output. -/
def describe (d : ScrapedDeal) : PyStr :=
  "Title: ".toList ++ d.title
    ++ "\nDetails: ".toList ++ pyStrip d.details
    ++ "\nFeatures: ".toList ++ pyStrip d.features
    ++ "\nURL: ".toList ++ d.url

/-- The five feed URLs configured at module level in `agents/deals.py`. -/
def feeds : List PyStr :=
  [ "https://www.dealnews.com/c142/Electronics/?rss=1".toList,
    "https://www.dealnews.com/c39/Computers/?rss=1".toList,
    "https://www.dealnews.com/c238/Automotive/?rss=1".toList,
    "https://www.dealnews.com/f1912/Smart-Home/?rss=1".toList,
    "https://www.dealnews.com/c196/Home-Garden/?rss=1".toList ]

/-- The inner loop of `ScrapedDeal.fetch` over one feed's entries:
`deals.append(cls(entry))` for each entry, where an exception raised by any
construction propagates and discards the whole run.  The `time.sleep(0.5)`
pacing is a real-time side effect with no bearing on the returned value. -/
def processEntries (env : SoupEnv) : List Entry → Except PyErr (List ScrapedDeal)
  | [] => .ok []
  | e :: es =>
    match mkScrapedDeal env e with
    | .error er => .error er
    | .ok d =>
      match processEntries env es with
      | .error er => .error er
      | .ok ds => .ok (d :: ds)

/-- One feed's contribution to `ScrapedDeal.fetch`:
`feedparser.parse(feed_url)` (total: a failing feed yields no entries), then
the first 10 entries (`feed.entries[:10]`). -/
def processFeed (env : SoupEnv) (feedUrl : PyStr) : Except PyErr (List ScrapedDeal) :=
  processEntries env ((env.parseFeed feedUrl).take 10)

/-- Model of `tqdm(xs)` as an iterable: it yields exactly the elements of the
underlying list; the progress display is an I/O side channel outside the
embedding. -/
def tqdmList (xs : List α) : List α := xs

/-- The feed loop of `ScrapedDeal.fetch`. -/
def fetchLoop (env : SoupEnv) : List PyStr → Except PyErr (List ScrapedDeal)
  | [] => .ok []
  | u :: us =>
    match processFeed env u with
    | .error er => .error er
    | .ok ds =>
      match fetchLoop env us with
      | .error er => .error er
      | .ok rest => .ok (ds ++ rest)

/-- `ScrapedDeal.fetch(show_progress)`: iterate `tqdm(feeds)` when progress
display is requested, else `feeds`, collecting every constructed deal.  The
feed list is passed explicitly (the source reads the module-level `feeds`
constant). -/
def fetchDeals (env : SoupEnv) (showProgress : Bool) (feedUrls : List PyStr) :
    Except PyErr (List ScrapedDeal) :=
  fetchLoop env (if showProgress then tqdmList feedUrls else feedUrls)

/-- A dynamic Python value passed to a pydantic constructor: a string, a
number (Python `float`/`int`, modelled as an exact rational), or `None`. -/
inductive PyVal where
  | vstr (s : PyStr)
  | vnum (q : ℚ)
  | vnone
deriving DecidableEq

/-- Pydantic's failure mode: a `ValidationError` at construction. -/
inductive PydErr where
  | validationError
deriving DecidableEq, Repr

/-- The `Deal` pydantic model: `product_description: str`, `price: float`,
`url: str`, all required. -/
structure Deal where
  product_description : PyStr
  price : ℚ
  url : PyStr
deriving DecidableEq

/-- A `DealSelection` pydantic model: `deals: List[Deal]`. -/
structure DealSelection where
  deals : List Deal
deriving DecidableEq

/-- Model of Python's `float(s)` on the numeric-literal subset
`[sign] digits [. digits]` with at least one digit (after stripping
surrounding whitespace, as `float` does); exponent forms, `inf` and `nan` are
outside the subset exercised here. -/
def pyFloatOfString (s : PyStr) : Option ℚ :=
  let t := pyStrip s
  let signed : ℚ × PyStr :=
    match t with
    | '+' :: r => (1, r)
    | '-' :: r => (-1, r)
    | r => (1, r)
  let sign := signed.1
  let t2 := signed.2
  let ip := t2.takeWhile Char.isDigit
  let rest := t2.dropWhile Char.isDigit
  let ipVal : ℚ := (ip.foldl (fun n c => n * 10 + (c.toNat - '0'.toNat)) 0 : ℕ)
  match rest with
  | [] => if ip = [] then none else some (sign * ipVal)
  | '.' :: frac =>
    let fd := frac.takeWhile Char.isDigit
    if frac.dropWhile Char.isDigit ≠ [] then none
    else if ip = [] && fd = [] then none
    else
      let fdVal : ℚ := (fd.foldl (fun n c => n * 10 + (c.toNat - '0'.toNat)) 0 : ℕ)
      some (sign * (ipVal + fdVal / 10 ^ fd.length))
  | _ => none

/-- Pydantic validation of a required `str` field: present strings are taken
as-is, anything else (missing, `None`, a number) is a `ValidationError`. -/
def validateStr : Option PyVal → Except PydErr PyStr
  | some (.vstr s) => .ok s
  | _ => .error .validationError

/-- Pydantic validation of a required `float` field: numbers are taken as-is,
strings are coerced through `float()` when they parse as a numeric literal
(pydantic lax mode), anything else is a `ValidationError`. -/
def validateFloat : Option PyVal → Except PydErr ℚ
  | some (.vnum q) => .ok q
  | some (.vstr s) =>
    match pyFloatOfString s with
    | some q => .ok q
    | none => .error .validationError
  | _ => .error .validationError

/-- Construction of a `Deal` from dynamic field values, in field order;
`none` models an absent field. -/
def mkDeal (pd price url : Option PyVal) : Except PydErr Deal :=
  match validateStr pd with
  | .error e => .error e
  | .ok d =>
    match validateFloat price with
    | .error e => .error e
    | .ok p =>
      match validateStr url with
      | .error e => .error e
      | .ok u => .ok { product_description := d, price := p, url := u }

/-- Field-for-field serialization of a `Deal` (pydantic `model_dump`). -/
def dumpDeal (d : Deal) : Option PyVal × Option PyVal × Option PyVal :=
  (some (.vstr d.product_description), some (.vnum d.price), some (.vstr d.url))

/-- The `Opportunity` pydantic model: a `Deal`, an externally estimated
market value, and a discount. -/
structure Opportunity where
  deal : Deal
  estimate : ℚ
  discount : ℚ
deriving DecidableEq

/-- Modelled from the spec: the valuation collaborator that builds an
`Opportunity` is excluded from the sources under `src/` (spec §1, §3); per
the spec, `discount` is the externally computed value `estimate -
deal.price`. -/
def mkOpportunity (d : Deal) (estimate : ℚ) : Opportunity :=
  { deal := d, estimate := estimate, discount := estimate - d.price }

deriving instance DecidableEq for Except

/-- An environment whose parser finds no snippet-summary container in any
input (plain-text snippets). -/
def envNone : SoupEnv where
  findSnippetText _ := none
  getText s := s
  httpGet _ := .error .httpError
  findContentText _ := none
  parseFeed _ := []

/-- Input whose snippet-summary div contains a doubly entity-escaped div
(`&amp;lt;` decodes to `&lt;` in the first text extraction, then to `<` in
the second parse): the three cleaning stages of `extract` leave findable
container markup in the output. -/
def cexS0 : PyStr :=
  "<div class=\"snippet summary\">&amp;lt;div class=\"snippet summary\" &amp;lt;x&amp;gt;&amp;gt;TEXT&amp;lt;/div&amp;gt;</div>".toList

/-- Text of the snippet-summary div of `cexS0` after the first
`get_text(strip=True)`: `&amp;` has been decoded to `&`. -/
def cexD1 : PyStr :=
  "&lt;div class=\"snippet summary\" &lt;x&gt;&gt;TEXT&lt;/div&gt;".toList

/-- Result of the second parse's `get_text()` on `cexD1`: the string has no
`<` characters, so it is a pure text document whose character references
decode to `<` and `>` in the data. -/
def cexD2 : PyStr :=
  "<div class=\"snippet summary\" <x>>TEXT</div>".toList

/-- Environment mirroring BeautifulSoup (html.parser) on the concrete inputs
of the idempotence counterexample: it finds the snippet-summary div of
`cexS0` (its text is `cexD1`), finds the unclosed-but-parseable div that
`extract` itself produces from `cexS0` (`<div class="snippet summary"
>TEXT`, whose text is `TEXT`), and decodes the entities of `cexD1` to
`cexD2`. -/
def env6 : SoupEnv where
  findSnippetText s :=
    if s = cexS0 then some cexD1
    else if s = "<div class=\"snippet summary\" >TEXT".toList then some "TEXT".toList
    else none
  getText s := if s = cexD1 then cexD2 else s
  httpGet _ := .error .httpError
  findContentText _ := none
  parseFeed _ := []

/-- A well-formed feed entry with one link. -/
def entryA : Entry := ⟨"T".toList, "S".toList, ["u".toList]⟩

/-- A malformed feed entry with an empty link list: `entry['links'][0]`
raises `IndexError`. -/
def entryB : Entry := ⟨"T".toList, "S".toList, []⟩

/-- The destination-page content of the C4 scenario. -/
def content4 : PyStr := "...intro text...Features bullet one bullet two".toList

/-- Environment whose destination page carries the C4 scenario content. -/
def env4 : SoupEnv where
  findSnippetText _ := none
  getText s := s
  httpGet _ := .ok []
  findContentText _ := some content4
  parseFeed _ := []

/-- The record `ScrapedDeal.__init__` builds from `entryA` under `env4`: the
split segments are stored verbatim, whitespace included. -/
def deal4 : ScrapedDeal :=
  ⟨"T".toList, "S".toList, "u".toList,
   "...intro text...".toList, " bullet one bullet two".toList⟩

/-- Environment with one feed carrying one entry and a second feed carrying
none. -/
def env3 : SoupEnv where
  findSnippetText _ := none
  getText s := s
  httpGet _ := .ok "p".toList
  findContentText _ := some "hello".toList
  parseFeed u := if u = "f1".toList then [entryA] else []

/-- The record built from `entryA` under `env3`. -/
def deal3 : ScrapedDeal :=
  ⟨"T".toList, "S".toList, "u".toList, "hello".toList, []⟩

/-- Environment whose first feed has a well-formed entry and whose second
feed has a malformed entry (empty link list), so that record construction
fails mid-run. -/
def env10 : SoupEnv where
  findSnippetText _ := none
  getText s := s
  httpGet _ := .ok []
  findContentText _ := some []
  parseFeed u := if u = "f1".toList then [entryA] else [entryB]

theorem replaceNl_replaceNl (l : PyStr) : replaceNl (replaceNl l) = replaceNl l := by
  unfold replaceNl
  rw [List.map_map]
  apply List.map_congr_left
  intro c _
  by_cases hc : c = '\n' <;> simp [hc, Function.comp]

theorem replaceNl_fixes_extract (env : SoupEnv) (s : PyStr) :
    replaceNl (extract env s) = extract env s := by
  unfold extract
  cases env.findSnippetText s <;> simp [replaceNl_replaceNl]

theorem findSplit_eq_append {sep l b a : List Char}
    (h : findSplit sep l = some (b, a)) : l = b ++ sep ++ a := by
  induction l generalizing b a with
  | nil =>
    unfold findSplit at h
    split at h
    · rename_i hp
      have hnil : sep = [] := List.prefix_nil.mp (List.isPrefixOf_iff_prefix.mp hp)
      simp only [Option.some.injEq, Prod.mk.injEq] at h
      obtain ⟨rfl, rfl⟩ := h
      simp [hnil]
    · exact absurd h (by simp)
  | cons c rest ih =>
    unfold findSplit at h
    split at h
    · rename_i hp
      obtain ⟨t, ht⟩ := List.isPrefixOf_iff_prefix.mp hp
      simp only [Option.some.injEq, Prod.mk.injEq] at h
      obtain ⟨rfl, rfl⟩ := h
      rw [List.nil_append, ← ht, List.drop_left]
    · rename_i hp
      cases hfs : findSplit sep rest with
      | none => rw [hfs] at h; exact absurd h (by simp)
      | some p =>
        rw [hfs] at h
        simp only [Option.map_some', Option.some.injEq, Prod.mk.injEq] at h
        obtain ⟨rfl, rfl⟩ := h
        have := ih hfs
        simp [this]

theorem findSplit_min {sep l b a : List Char}
    (h : findSplit sep l = some (b, a)) :
    ∀ b' a', l = b' ++ sep ++ a' → b.length ≤ b'.length := by
  induction l generalizing b a with
  | nil =>
    intro b' a' _
    unfold findSplit at h
    split at h
    · simp only [Option.some.injEq, Prod.mk.injEq] at h
      obtain ⟨rfl, rfl⟩ := h
      simp
    · exact absurd h (by simp)
  | cons c rest ih =>
    intro b' a' he
    unfold findSplit at h
    split at h
    · simp only [Option.some.injEq, Prod.mk.injEq] at h
      obtain ⟨rfl, rfl⟩ := h
      simp
    · rename_i hp
      cases hfs : findSplit sep rest with
      | none => rw [hfs] at h; exact absurd h (by simp)
      | some p =>
        rw [hfs] at h
        simp only [Option.map_some', Option.some.injEq, Prod.mk.injEq] at h
        obtain ⟨rfl, rfl⟩ := h
        cases b' with
        | nil =>
          exfalso
          apply hp
          apply List.isPrefixOf_iff_prefix.mpr
          rw [List.nil_append] at he
          exact he ▸ List.prefix_append sep a'
        | cons c' b'' =>
          have hrest : rest = b'' ++ sep ++ a' := by
            simpa using congrArg List.tail he
          have := ih hfs b'' a' hrest
          simpa using Nat.succ_le_succ this

theorem findSplit_none_no_occ {sep l : List Char}
    (h : findSplit sep l = none) : ∀ b a, l ≠ b ++ sep ++ a := by
  induction l with
  | nil =>
    intro b a he
    unfold findSplit at h
    split at h
    · exact absurd h (by simp)
    · rename_i hp
      apply hp
      have hb : b = [] := by
        have := congrArg List.length he
        simp at this
        exact List.eq_nil_of_length_eq_zero (by omega)
      have hs : sep = [] := by
        have := congrArg List.length he
        simp at this
        exact List.eq_nil_of_length_eq_zero (by omega)
      simp [hs, List.isPrefixOf]
  | cons c rest ih =>
    intro b a he
    unfold findSplit at h
    split at h
    · exact absurd h (by simp)
    · rename_i hp
      have hmap : findSplit sep rest = none := by
        cases hfs : findSplit sep rest with
        | none => rfl
        | some p => rw [hfs] at h; exact absurd h (by simp)
      cases b with
      | nil =>
        apply hp
        apply List.isPrefixOf_iff_prefix.mpr
        rw [List.nil_append] at he
        exact he ▸ List.prefix_append sep a
      | cons c' b'' =>
        have hrest : rest = b'' ++ sep ++ a := by
          simpa using congrArg List.tail he
        exact ih hmap b'' a hrest

theorem processEntries_ok_length {env : SoupEnv} {es : List Entry}
    {ds : List ScrapedDeal} (h : processEntries env es = .ok ds) :
    ds.length = es.length := by
  induction es generalizing ds with
  | nil => unfold processEntries at h; simp only [Except.ok.injEq] at h; simp [← h]
  | cons e es ih =>
    unfold processEntries at h
    cases hm : mkScrapedDeal env e with
    | error er => rw [hm] at h; exact absurd h (by simp)
    | ok d =>
      rw [hm] at h
      cases hr : processEntries env es with
      | error er => rw [hr] at h; exact absurd h (by simp)
      | ok ds' =>
        rw [hr] at h
        simp only [Except.ok.injEq] at h
        simp [← h, ih hr]

theorem processEntries_ok_mem {env : SoupEnv} {es : List Entry}
    {ds : List ScrapedDeal} (h : processEntries env es = .ok ds) :
    ∀ e ∈ es, ∃ d, mkScrapedDeal env e = .ok d := by
  induction es generalizing ds with
  | nil => intro e he; exact absurd he (by simp)
  | cons e' es ih =>
    intro e he
    unfold processEntries at h
    cases hm : mkScrapedDeal env e' with
    | error er => rw [hm] at h; exact absurd h (by simp)
    | ok d =>
      rw [hm] at h
      cases hr : processEntries env es with
      | error er => rw [hr] at h; exact absurd h (by simp)
      | ok ds' =>
        rcases List.mem_cons.mp he with rfl | hmem
        · exact ⟨d, hm⟩
        · exact ih hr e hmem

theorem processFeed_ok_length {env : SoupEnv} {u : PyStr}
    {ds : List ScrapedDeal} (h : processFeed env u = .ok ds) :
    ds.length = min 10 (env.parseFeed u).length := by
  unfold processFeed at h
  rw [processEntries_ok_length h, List.length_take]

theorem fetchLoop_ok_decomp {env : SoupEnv} {us : List PyStr}
    {ds : List ScrapedDeal} (h : fetchLoop env us = .ok ds) :
    ∃ dss : List (List ScrapedDeal),
      List.Forall₂ (fun u l => processFeed env u = .ok l) us dss ∧
      ds = dss.flatten := by
  induction us generalizing ds with
  | nil =>
    unfold fetchLoop at h
    simp only [Except.ok.injEq] at h
    exact ⟨[], List.Forall₂.nil, by simp [← h]⟩
  | cons u us ih =>
    unfold fetchLoop at h
    cases hp : processFeed env u with
    | error er => rw [hp] at h; exact absurd h (by simp)
    | ok l =>
      rw [hp] at h
      cases hr : fetchLoop env us with
      | error er => rw [hr] at h; exact absurd h (by simp)
      | ok rest =>
        rw [hr] at h
        simp only [Except.ok.injEq] at h
        obtain ⟨dss, hall, hjoin⟩ := ih hr
        exact ⟨l :: dss, List.Forall₂.cons hp hall, by simp [← h, hjoin]⟩

theorem forall2_processFeed_sum {env : SoupEnv} {us : List PyStr}
    {dss : List (List ScrapedDeal)}
    (h : List.Forall₂ (fun u l => processFeed env u = .ok l) us dss) :
    (dss.map List.length).sum
      = (us.map (fun u => min 10 (env.parseFeed u).length)).sum := by
  induction h with
  | nil => rfl
  | cons hab _ ih =>
    simp only [List.map_cons, List.sum_cons, ih, processFeed_ok_length hab]

theorem forall2_processFeed_cap {env : SoupEnv} {us : List PyStr}
    {dss : List (List ScrapedDeal)}
    (h : List.Forall₂ (fun u l => processFeed env u = .ok l) us dss) :
    ∀ l ∈ dss, l.length ≤ 10 := by
  induction h with
  | nil => intro l hl; exact absurd hl (by simp)
  | cons hab _ ih =>
    intro l hl
    rcases List.mem_cons.mp hl with rfl | hmem
    · rw [processFeed_ok_length hab]; exact Nat.min_le_left 10 _
    · exact ih l hmem

theorem fetchLoop_ok_feed {env : SoupEnv} {us : List PyStr}
    {ds : List ScrapedDeal} (h : fetchLoop env us = .ok ds) :
    ∀ u ∈ us, ∃ l, processFeed env u = .ok l := by
  induction us generalizing ds with
  | nil => intro u hu; exact absurd hu (by simp)
  | cons u' us ih =>
    intro u hu
    unfold fetchLoop at h
    cases hp : processFeed env u' with
    | error er => rw [hp] at h; exact absurd h (by simp)
    | ok l =>
      rw [hp] at h
      cases hr : fetchLoop env us with
      | error er => rw [hr] at h; exact absurd h (by simp)
      | ok rest =>
        rcases List.mem_cons.mp hu with rfl | hmem
        · exact ⟨l, hp⟩
        · exact ih hr u hmem

/-- C5: for every input string in which no snippet-summary container element
is found, `extract` raises no exception (it is total) and returns the
original input unchanged except that every newline character is replaced by
a space. -/
theorem extract_no_container_fallback (env : SoupEnv) (s : PyStr)
    (h : env.findSnippetText s = none) : extract env s = replaceNl s := by
  unfold extract
  rw [h]

theorem extract_no_container_fallback_witness :
    extract envNone "a\nb<i>c".toList = replaceNl "a\nb<i>c".toList :=
  extract_no_container_fallback envNone "a\nb<i>c".toList rfl

/-- C6 (amended): `extract` is idempotent on every output in which the HTML
parser finds no snippet-summary container — in particular on genuinely plain
text — because every `extract` output is newline-free, so the fallback
returns it unchanged.  The unconditional claim is false: see the
counterexample. -/
theorem extract_idempotent_of_no_container (env : SoupEnv) (s : PyStr)
    (h : env.findSnippetText (extract env s) = none) :
    extract env (extract env s) = extract env s := by
  have hfix := replaceNl_fixes_extract env s
  generalize ht : extract env s = t at h hfix ⊢
  have hstep : extract env t = replaceNl t := by
    unfold extract
    rw [h]
  rw [hstep, hfix]

theorem extract_idempotent_of_no_container_witness :
    extract envNone (extract envNone "x\ny".toList) = extract envNone "x\ny".toList :=
  extract_idempotent_of_no_container envNone "x\ny".toList rfl

/-- C6 (counterexample): `extract` is not idempotent.  On `cexS0` the
snippet-summary div is found and its text is cleaned, but the doubly
entity-escaped payload survives both text extractions, and the regex safety
net `re.sub('<[^<]+?>', '', ...)` on `<div class="snippet summary"
<x>>TEXT</div>` removes `<x>` and `</div>` and leaves `<div class="snippet
summary" >TEXT` — a string in which the parser again finds a
snippet-summary container, so the second application reduces it to `TEXT`. -/
theorem extract_not_idempotent_cex :
    extract env6 (extract env6 cexS0) ≠ extract env6 cexS0 := by decide

/-- C1 (amended): when the cleaned page text contains the `"Features"`
marker and record construction succeeds, the marker occurred exactly once:
`details` is exactly the text before that (first) occurrence, `features`
exactly the text after it, and `details ++ "Features" ++ features`
reconstructs the text.  When the marker occurs more than once, `split`
produces more than two parts and the two-variable unpacking raises
`ValueError` instead of splitting at the first occurrence (see the
counterexample). -/
theorem splitFeatures_single_occurrence (content d f : PyStr)
    (h : splitFeatures content = .ok (d, f)) (hc : containsFeat content = true) :
    content = d ++ featSep ++ f ∧
    (∀ b a, content = b ++ featSep ++ a → d.length ≤ b.length) ∧
    (∀ b a, f ≠ b ++ featSep ++ a) := by
  unfold splitFeatures at h
  cases hfs : findSplit featSep content with
  | none =>
    unfold containsFeat at hc
    rw [hfs] at hc
    exact absurd hc (by simp)
  | some p =>
    obtain ⟨d0, f0⟩ := p
    rw [hfs] at h
    by_cases h2 : (findSplit featSep f0).isSome = true
    · simp [h2] at h
    · simp only [h2, if_false, Bool.false_eq_true, Except.ok.injEq, Prod.mk.injEq] at h
      obtain ⟨rfl, rfl⟩ := h
      have hnone : findSplit featSep f0 = none :=
        Option.not_isSome_iff_eq_none.mp (by simpa using h2)
      exact ⟨findSplit_eq_append hfs, findSplit_min hfs, findSplit_none_no_occ hnone⟩

theorem splitFeatures_single_occurrence_witness :
    "abFeaturescd".toList = "ab".toList ++ featSep ++ "cd".toList :=
  (splitFeatures_single_occurrence "abFeaturescd".toList "ab".toList "cd".toList
    (by decide) (by decide)).1

/-- C1 (counterexample): on a page text in which `"Features"` occurs twice,
the construction does not split at the first occurrence: `content.split`
yields three parts and the two-variable unpacking raises `ValueError`, so no
`(details, features)` pair is produced at all. -/
theorem splitFeatures_two_occurrences_cex :
    containsFeat "aFeaturesbFeaturesc".toList = true ∧
    splitFeatures "aFeaturesbFeaturesc".toList = .error .valueError := by decide

/-- C2 (amended): for every successfully constructed record, `details` and
`features` come from the one content-split operation: when the marker is not
found, `details` is the whole text and `features` is empty; when the marker
is found, the text splits as `details ++ "Features" ++ features`, and
`features` is empty exactly when the text ends at the marker.  So `features
== ""` follows from the marker being absent, but the converse of the claimed
"iff" fails: a text ending in `"Features"` has the marker yet an empty
`features` (see the counterexample). -/
theorem splitFeatures_empty_features (content d f : PyStr)
    (h : splitFeatures content = .ok (d, f)) :
    (containsFeat content = false → d = content ∧ f = []) ∧
    (containsFeat content = true →
      content = d ++ featSep ++ f ∧ (f = [] ↔ content = d ++ featSep)) := by
  unfold splitFeatures at h
  cases hfs : findSplit featSep content with
  | none =>
    rw [hfs] at h
    simp only [Except.ok.injEq, Prod.mk.injEq] at h
    obtain ⟨rfl, rfl⟩ := h
    constructor
    · intro _
      exact ⟨rfl, rfl⟩
    · intro hc
      unfold containsFeat at hc
      rw [hfs] at hc
      exact absurd hc (by simp)
  | some p =>
    obtain ⟨d0, f0⟩ := p
    rw [hfs] at h
    by_cases h2 : (findSplit featSep f0).isSome = true
    · simp [h2] at h
    · simp only [h2, if_false, Bool.false_eq_true, Except.ok.injEq, Prod.mk.injEq] at h
      obtain ⟨rfl, rfl⟩ := h
      constructor
      · intro hc
        unfold containsFeat at hc
        rw [hfs] at hc
        exact absurd hc (by simp)
      · intro _
        have heq := findSplit_eq_append hfs
        refine ⟨heq, ?_, ?_⟩
        · intro hf
          rw [heq, hf, List.append_nil]
        · intro hend
          have : d0 ++ featSep ++ f0 = d0 ++ featSep ++ [] := by
            rw [List.append_nil, ← heq, hend]
          exact List.append_cancel_left this

theorem splitFeatures_empty_features_witness :
    "xFeatures".toList = "x".toList ++ featSep ++ ([] : PyStr) ∧
    (([] : PyStr) = [] ↔ "xFeatures".toList = "x".toList ++ featSep) :=
  (splitFeatures_empty_features "xFeatures".toList "x".toList [] (by decide)).2
    (by decide)

/-- C2 (counterexample): the claimed "iff" fails in the right-to-left
direction: for a destination page whose cleaned content is `"xFeatures"`,
the marker is found, yet the constructed `features` is the empty string. -/
theorem splitFeatures_empty_with_marker_cex :
    splitFeatures "xFeatures".toList = .ok ("x".toList, []) ∧
    containsFeat "xFeatures".toList = true := by decide

/-- C4 (amended): the constructor stores the split segments verbatim — the
pair `(details, features)` is exactly what the content split returns on the
cleaned page text, surrounding whitespace included; whitespace stripping is
applied only when `describe` renders the record, which strips `details` and
`features` in its output.  The claimed "stripped before storage" is false
(see the counterexample). -/
theorem mkScrapedDeal_stores_verbatim (env : SoupEnv) (e : Entry)
    (url : PyStr) (rest : List PyStr) (page raw : PyStr) (d : ScrapedDeal)
    (hl : e.links = url :: rest) (hg : env.httpGet url = .ok page)
    (hf : env.findContentText page = some raw)
    (h : mkScrapedDeal env e = .ok d) :
    splitFeatures (cleanContent raw) = .ok (d.details, d.features) ∧
    describe d = "Title: ".toList ++ e.title
      ++ "\nDetails: ".toList ++ pyStrip d.details
      ++ "\nFeatures: ".toList ++ pyStrip d.features
      ++ "\nURL: ".toList ++ url := by
  unfold mkScrapedDeal at h
  rw [hl] at h
  simp only [hg, hf] at h
  cases hsp : splitFeatures (cleanContent raw) with
  | error er => rw [hsp] at h; exact absurd h (by simp)
  | ok p =>
    obtain ⟨dd, ff⟩ := p
    rw [hsp] at h
    simp only [Except.ok.injEq] at h
    subst h
    exact ⟨rfl, rfl⟩

theorem mkScrapedDeal_stores_verbatim_witness :
    splitFeatures (cleanContent content4) = .ok (deal4.details, deal4.features) ∧
    describe deal4 = "Title: ".toList ++ entryA.title
      ++ "\nDetails: ".toList ++ pyStrip deal4.details
      ++ "\nFeatures: ".toList ++ pyStrip deal4.features
      ++ "\nURL: ".toList ++ "u".toList :=
  mkScrapedDeal_stores_verbatim env4 entryA "u".toList [] [] content4 deal4
    (by decide) rfl rfl (by decide)

/-- C4 (counterexample): on the claim's own scenario content
`"...intro text...Features bullet one bullet two"`, the stored `features`
field is `" bullet one bullet two"` — it keeps its leading space, so it is
not stripped before storage (and differs from the claimed trimmed value). -/
theorem mkScrapedDeal_unstripped_cex :
    mkScrapedDeal env4 entryA = .ok deal4 ∧
    deal4.features ≠ pyStrip deal4.features ∧
    deal4.features ≠ "bullet one bullet two".toList := by decide

/-- C3: whenever the collection driver returns a record list, that list is
the feed-order concatenation of per-feed blocks, each block the entry-order
result of processing the first 10 entries of its feed (so at most 10 records
per feed), and the total count is the sum over feeds of the number of
processed entries; a feed that fails yields no entries (feedparser returns
an empty entry list rather than raising) and so contributes 0 records
without aborting the run. -/
theorem fetch_cap_total_order (env : SoupEnv) (sp : Bool)
    (feedUrls : List PyStr) (ds : List ScrapedDeal)
    (h : fetchDeals env sp feedUrls = .ok ds) :
    (∃ dss : List (List ScrapedDeal),
      List.Forall₂ (fun u l => processFeed env u = .ok l) feedUrls dss ∧
      ds = dss.flatten ∧ ∀ l ∈ dss, l.length ≤ 10) ∧
    ds.length = (feedUrls.map (fun u => min 10 (env.parseFeed u).length)).sum ∧
    ∀ u, env.parseFeed u = [] → processFeed env u = .ok [] := by
  have hloop : fetchLoop env feedUrls = .ok ds := by
    cases sp <;> simpa [fetchDeals, tqdmList] using h
  obtain ⟨dss, hall, rfl⟩ := fetchLoop_ok_decomp hloop
  refine ⟨⟨dss, hall, rfl, forall2_processFeed_cap hall⟩, ?_, ?_⟩
  · rw [List.length_flatten, forall2_processFeed_sum hall]
  · intro u hu
    unfold processFeed
    rw [hu]
    rfl

theorem fetch_cap_total_order_witness :
    ([deal3] : List ScrapedDeal).length
      = (["f1".toList, "f2".toList].map
          (fun u => min 10 (env3.parseFeed u).length)).sum :=
  (fetch_cap_total_order env3 false ["f1".toList, "f2".toList] [deal3]
    (by decide)).2.1

/-- C10: if constructing the record for any entry among the first 10 of some
feed fails (for example with `IndexError` on an empty link list, a failed
page fetch, a missing content-section, or `ValueError` from a repeated
`"Features"` marker), then `fetch` returns no record list at all — it
propagates the exception as an error, and every record built for earlier
entries and earlier feeds in that run is discarded rather than returned. -/
theorem fetch_aborts_on_entry_failure (env : SoupEnv) (sp : Bool)
    (feedUrls : List PyStr) (u : PyStr) (e : Entry)
    (hu : u ∈ feedUrls) (he : e ∈ (env.parseFeed u).take 10)
    (hfail : ∀ d, mkScrapedDeal env e ≠ .ok d) :
    (∀ ds, fetchDeals env sp feedUrls ≠ .ok ds) ∧
    ∃ er, fetchDeals env sp feedUrls = .error er := by
  have hnot : ∀ ds, fetchDeals env sp feedUrls ≠ .ok ds := by
    intro ds hok
    have hloop : fetchLoop env feedUrls = .ok ds := by
      cases sp <;> simpa [fetchDeals, tqdmList] using hok
    obtain ⟨l, hl⟩ := fetchLoop_ok_feed hloop u hu
    unfold processFeed at hl
    obtain ⟨d, hd⟩ := processEntries_ok_mem hl e he
    exact hfail d hd
  refine ⟨hnot, ?_⟩
  cases hval : fetchDeals env sp feedUrls with
  | error er => exact ⟨er, rfl⟩
  | ok ds => exact absurd hval (hnot ds)

theorem fetch_aborts_on_entry_failure_witness :
    fetchDeals env10 false ["f1".toList, "f2".toList] ≠ .ok [] :=
  (fetch_aborts_on_entry_failure env10 false ["f1".toList, "f2".toList]
    "f2".toList entryB (by decide) (by decide)
    (fun d hd => by
      have hm : mkScrapedDeal env10 entryB = .error .indexError := by decide
      rw [hm] at hd
      exact absurd hd (by simp))).1 []

/-- C7: constructing a `Deal` with a missing required field, or with
`price="free"` (a string that does not parse as a number), is a
`ValidationError` rather than a silent default; constructing with
`price=19.99, product_description="x", url="http://x"` succeeds, and every
`Deal` round-trips unchanged through field-for-field serialization. -/
theorem deal_validation_roundtrip :
    (∀ pd url, mkDeal pd (some (.vstr "free".toList)) url
      = .error .validationError) ∧
    (∀ price url, mkDeal none price url = .error .validationError) ∧
    (∀ pd url, mkDeal pd none url = .error .validationError) ∧
    (∀ pd price, mkDeal pd price none = .error .validationError) ∧
    mkDeal (some (.vstr "x".toList)) (some (.vnum (1999 / 100)))
        (some (.vstr "http://x".toList))
      = .ok { product_description := "x".toList, price := 1999 / 100,
              url := "http://x".toList } ∧
    ∀ d : Deal, mkDeal (dumpDeal d).1 (dumpDeal d).2.1 (dumpDeal d).2.2 = .ok d := by
  have hfree : pyFloatOfString ['f', 'r', 'e', 'e'] = none := by decide
  refine ⟨?_, ?_, ?_, ?_, rfl, ?_⟩
  · intro pd url
    rcases pd with _ | v
    · rfl
    · rcases v with s | q | _
      · simp [mkDeal, validateStr, validateFloat, hfree]
      · rfl
      · rfl
  · intro price url
    rfl
  · intro pd url
    rcases pd with _ | v
    · rfl
    · rcases v with s | q | _ <;> rfl
  · intro pd price
    rcases pd with _ | v
    · rfl
    · rcases v with s | q | _
      · rcases price with _ | w
        · rfl
        · rcases w with s' | q' | _
          · cases hp : pyFloatOfString s' <;>
              simp [mkDeal, validateStr, validateFloat, hp]
          · rfl
          · rfl
      · rfl
      · rfl
  · intro d
    obtain ⟨pd, p, u⟩ := d
    rfl

/-- C8: for every `Opportunity` produced by the valuation step (modelled
from the spec, since the valuation collaborator is excluded from `src/`),
the `discount` field is the currency amount `estimate - deal.price`, a
positive discount meaning the deal is underpriced; in particular an
`Opportunity` over a `Deal` priced 50.0 with estimate 80.0 carries discount
30.0. -/
theorem opportunity_discount_invariant :
    (∀ (d : Deal) (e : ℚ),
      (mkOpportunity d e).discount = e - d.price ∧
      (0 < (mkOpportunity d e).discount ↔ d.price < e)) ∧
    (mkOpportunity
      { product_description := "p".toList, price := 50, url := "u".toList }
      80).discount = 30 := by
  constructor
  · intro d e
    exact ⟨rfl, by simp [mkOpportunity, sub_pos]⟩
  · norm_num [mkOpportunity]

/-- C9: the sequence of records returned by the collection driver does not
depend on the `show_progress` flag: `tqdm` only adds a progress display (an
observability side channel modelled outside the returned value) and yields
the same feed elements, so the two runs are equal for every environment and
feed list. -/
theorem fetch_progress_flag_invariant (env : SoupEnv) (feedUrls : List PyStr) :
    fetchDeals env true feedUrls = fetchDeals env false feedUrls := rfl
